import Mathlib

/-!
# Receipt Processor — verification of `src/backend/utils/utils.go`

Shallow embedding of the receipt-processor core (package `utils`):
`CalculatePoints`, `GenerateReceiptID`, `ValidateReceipt`, `ValidateID`
and their helpers, translated from the Go source.

Modelling conventions:
* `float64` values are modelled by `GoFloat`: the exact rational value of
  a finite double, an infinity, or NaN.  `strconv.ParseFloat` is modelled
  by its full grammar (`readFloat`/`special`: sign, decimal mantissa with
  optional `e` exponent, `0x` hex mantissa with mandatory `p` exponent,
  `inf`/`infinity`/`nan`, digit-separating underscores) followed by
  IEEE 754 round-to-nearest-ties-to-even (`roundFloat`), which is the
  conversion `ParseFloat` documents; the error flag covers syntax errors
  and `ErrRange` overflow, exactly what the call sites test.
  `math.Mod(x, 0.25)` on finite doubles is the exact remainder `goMod`
  (IEEE `fmod` is exact and `0.25` is a power of two); `price * 0.2` is
  the exact product with the double `0.2` rounded back by `roundFloat`;
  `math.Ceil` is exact on finite doubles.  Go's `int(f)` conversion is
  implementation-defined outside `int64` and on infinities and NaN, so
  claims touching it carry hypotheses confining inputs to the defined
  regime.
* Go `string` is Lean `String`; Go `len` (bytes) is modelled as the sum of
  UTF-8 sizes of the characters, which is the byte length.
* `sort.Slice` with a less-function comparing only `ShortDescription` is
  modelled as a stable insertion sort with the same comparator.
  `sort.Slice` is documented as unstable, so claims rely on the model's
  order only where it is forced: via order-insensitive properties
  (permutation, sortedness), on slices shorter than 12 elements (where
  Go runs exactly this insertion sort), or with pairwise-distinct
  descriptions (where every correct sort returns the same list).
* The `go-cache` duplicate cache is modelled as an association list with
  `get`/`set`; expiration is not modelled (no claim depends on time).
* SHA-256 and lowercase hex encoding are implemented in full over `Nat`.
-/

set_option maxRecDepth 10000

/-- Model of `models.Item`: one purchased item of a receipt. -/
structure Item where
  shortDescription : String
  price : String
deriving DecidableEq, Repr

/-- Model of `models.Receipt`: the receipt object handed to the core. -/
structure Receipt where
  retailer : String
  purchaseDate : String
  purchaseTime : String
  total : String
  items : List Item
deriving DecidableEq, Repr

/-- Parsed calendar date (from `time.Parse("2006-01-02", _)`). -/
structure GoDate where
  year : Nat
  month : Nat
  day : Nat
deriving DecidableEq, Repr

/-! ## String/byte helpers -/

/-- Character class of Go `unicode.IsSpace`: the Unicode White_Space
property, i.e. U+0009-U+000D, U+0020, U+0085, U+00A0, U+1680,
U+2000-U+200A, U+2028, U+2029, U+202F, U+205F and U+3000. -/
def isGoSpace (c : Char) : Bool :=
  (9 ≤ c.toNat && c.toNat ≤ 13) || c.toNat == 32 || c.toNat == 133 ||
  c.toNat == 160 || c.toNat == 5760 || (8192 ≤ c.toNat && c.toNat ≤ 8202) ||
  c.toNat == 8232 || c.toNat == 8233 || c.toNat == 8239 || c.toNat == 8287 ||
  c.toNat == 12288

/-- Byte length of a list of characters (UTF-8), i.e. Go `len` of the
corresponding string. -/
def byteLen (cs : List Char) : Nat :=
  cs.foldr (fun c n => c.utf8Size + n) 0

/-- Go `len(strings.ReplaceAll(s, " ", ""))`: byte length of `s` with every
space character removed. -/
def noSpaceByteLen (s : String) : Nat :=
  byteLen (s.data.filter (fun c => c ≠ ' '))

/-- Go `len(strings.TrimSpace(s))`: byte length after trimming leading and
trailing white space. -/
def trimmedByteLen (s : String) : Nat :=
  byteLen (((s.data.dropWhile isGoSpace).reverse.dropWhile isGoSpace).reverse)

/-- Digit value of a character. -/
def digitVal (c : Char) : Nat := c.toNat - 48

/-! ## `strconv.ParseFloat(s, 64)`

Modelled in two faithful stages:
* the grammar of `readFloat`/`special`: optional sign; `inf`/`infinity`
  (sign allowed) and `nan` (unsigned), case-insensitively; a decimal
  mantissa with at most one point, at least one digit and an optional
  `e`/`E` exponent; a `0x`/`0X` hexadecimal mantissa with a mandatory
  `p`/`P` binary exponent; digit-separating underscores checked by
  `underscoreOK`; the whole string must be consumed;
* the conversion: `ParseFloat` documents that it "returns the nearest
  floating-point number rounded using IEEE 754 unbiased rounding", so the
  exact rational value of the literal is rounded to the nearest `float64`
  (ties to even, subnormal grid below `2^-1022`, underflow to zero,
  values of magnitude at least `2^1024` overflow to infinity with
  `ErrRange`).

A `float64` is carried as its exact rational value, or an infinity or
NaN. -/

/-- Model of a Go `float64` value: the exact rational value of a finite
double, an infinity, or a NaN. -/
inductive GoFloat where
  | finite (q : ℚ)
  | inf (neg : Bool)
  | nan
deriving DecidableEq, Repr

/-- Go `lower(c)`: ASCII lower-casing by setting bit 5. -/
def lowerChar (c : Char) : Char :=
  Char.ofNat (c.toNat ||| 32)

/-- Hexadecimal digit letters `a-f`/`A-F`. -/
def isHexLetter (c : Char) : Bool :=
  (decide ('a' ≤ c) && decide (c ≤ 'f')) || (decide ('A' ≤ c) && decide (c ≤ 'F'))

/-- Value of a hexadecimal digit letter. -/
def hexLetterVal (c : Char) : Nat := (c.toNat ||| 32) - 87

/-- Model of `strconv`'s `special`: the whole string is `inf`/`infinity`
with an optional sign, or an unsigned `nan`, case-insensitively. -/
def parseSpecial (cs : List Char) : Option GoFloat :=
  match cs.map lowerChar with
  | ['i', 'n', 'f'] => some (GoFloat.inf false)
  | ['i', 'n', 'f', 'i', 'n', 'i', 't', 'y'] => some (GoFloat.inf false)
  | ['+', 'i', 'n', 'f'] => some (GoFloat.inf false)
  | ['+', 'i', 'n', 'f', 'i', 'n', 'i', 't', 'y'] => some (GoFloat.inf false)
  | ['-', 'i', 'n', 'f'] => some (GoFloat.inf true)
  | ['-', 'i', 'n', 'f', 'i', 'n', 'i', 't', 'y'] => some (GoFloat.inf true)
  | ['n', 'a', 'n'] => some GoFloat.nan
  | _ => none

/-- State of the mantissa scan of `readFloat`: exact mantissa value,
digits seen, position of the decimal point, whether any digit and any
underscore was seen. -/
structure ScanAcc where
  m : Nat
  nd : Nat
  dotPos : Option Nat
  sawDigits : Bool
  underscore : Bool

/-- The mantissa loop of `readFloat`: consume digits, at most one point
and digit-separating underscores, stopping at (and returning) the first
other character; a second point also stops the scan. -/
def scanMantissa (hex : Bool) (acc : ScanAcc) : List Char → ScanAcc × List Char
  | [] => (acc, [])
  | c :: rest =>
    if c == '_' then scanMantissa hex { acc with underscore := true } rest
    else if c == '.' then
      match acc.dotPos with
      | some _ => (acc, c :: rest)
      | none => scanMantissa hex { acc with dotPos := some acc.nd } rest
    else if c.isDigit then
      scanMantissa hex
        { acc with m := (if hex then 16 else 10) * acc.m + digitVal c,
                   nd := acc.nd + 1, sawDigits := true } rest
    else if hex && isHexLetter c then
      scanMantissa hex
        { acc with m := 16 * acc.m + hexLetterVal c,
                   nd := acc.nd + 1, sawDigits := true } rest
    else (acc, c :: rest)

/-- The exponent-digit loop of `readFloat`: digits and underscores. -/
def scanExpDigits (e : Nat) (us : Bool) : List Char → Nat × Bool × List Char
  | [] => (e, us, [])
  | c :: rest =>
    if c == '_' then scanExpDigits e true rest
    else if c.isDigit then scanExpDigits (10 * e + digitVal c) us rest
    else (e, us, c :: rest)

/-- The state loop of `strconv`'s `underscoreOK`: `saw` is `^` at the
start, `0` after a digit or base prefix, `_` after an underscore and `!`
otherwise; an underscore must be preceded and followed by a digit. -/
def underscoreOKCore (hex : Bool) : Char → List Char → Bool
  | saw, [] => saw != '_'
  | saw, c :: rest =>
    if c.isDigit || (hex && isHexLetter c) then underscoreOKCore hex '0' rest
    else if c == '_' then
      if saw == '0' then underscoreOKCore hex '_' rest else false
    else if saw == '_' then false
    else underscoreOKCore hex '!' rest

/-- Model of `strconv`'s `underscoreOK` over the full literal: optional
sign, optional base prefix (which counts as a digit), then the state
loop. -/
def underscoreOK (cs : List Char) : Bool :=
  let cs1 := match cs with
    | '+' :: r => r
    | '-' :: r => r
    | r => r
  match cs1 with
  | '0' :: c :: r =>
    if lowerChar c == 'b' || lowerChar c == 'o' || lowerChar c == 'x' then
      underscoreOKCore (lowerChar c == 'x') '0' r
    else underscoreOKCore false '^' ('0' :: c :: r)
  | _ => underscoreOKCore false '^' cs1

/-- Exact rational value of a scanned literal: mantissa `m` with
`fracDigits` digits after the point and exponent `e` (base 10 for
decimal, base 2 with four bits per fractional hex digit for hex),
written with `mkRat` so that it evaluates. -/
def exactVal (hex : Bool) (m fracDigits : Nat) (e : ℤ) : ℚ :=
  let b : Nat := if hex then 2 else 10
  let t : ℤ := e - ((if hex then 4 * fracDigits else fracDigits : Nat) : ℤ)
  if 0 ≤ t then mkRat ((m * b ^ t.toNat : Nat) : ℤ) 1
  else mkRat (m : ℤ) (b ^ (-t).toNat)

/-- Model of `readFloat` composed with the full-consumption check of
`ParseFloat`: sign, optional `0x` prefix, mantissa, exponent (mandatory
for hex, `e`/`E` optional for decimal, first exponent character after the
sign must be a digit), underscore validation, nothing left over.  Returns
the sign and the exact rational magnitude. -/
def readFloatChars (cs0 : List Char) : Option (Bool × ℚ) :=
  let (neg, cs1) : Bool × List Char :=
    match cs0 with
    | '+' :: r => (false, r)
    | '-' :: r => (true, r)
    | r => (false, r)
  let (hex, cs2) : Bool × List Char :=
    match cs1 with
    | '0' :: c :: r => if lowerChar c == 'x' then (true, r) else (false, cs1)
    | _ => (false, cs1)
  let (acc, rest) := scanMantissa hex ⟨0, 0, none, false, false⟩ cs2
  if !acc.sawDigits then none
  else
    let fracDigits : Nat := match acc.dotPos with
      | none => 0
      | some dp => acc.nd - dp
    match rest with
    | [] =>
      if hex then none
      else if acc.underscore && !underscoreOK cs0 then none
      else some (neg, exactVal hex acc.m fracDigits 0)
    | c :: r1 =>
      if (hex && lowerChar c == 'p') || (!hex && lowerChar c == 'e') then
        let (esign, r2) : ℤ × List Char :=
          match r1 with
          | '+' :: rr => (1, rr)
          | '-' :: rr => (-1, rr)
          | rr => (1, rr)
        match r2 with
        | [] => none
        | d :: _ =>
          if d.isDigit then
            let (e, us2, r3) := scanExpDigits 0 false r2
            if r3 = [] then
              if (acc.underscore || us2) && !underscoreOK cs0 then none
              else some (neg, exactVal hex acc.m fracDigits (esign * (e : ℤ)))
            else none
          else none
      else none

/-- Executable negation of a rational. -/
def qNeg (q : ℚ) : ℚ := mkRat (-q.num) q.den

/-- Fuel-based floor of the base-2 logarithm (the fuel `n` suffices for
input `n`), executable in the kernel. -/
def natLog2Aux : Nat → Nat → Nat
  | 0, _ => 0
  | fuel + 1, n => if n ≤ 1 then 0 else natLog2Aux fuel (n / 2) + 1

/-- Floor of the base-2 logarithm of a positive natural. -/
def natLog2 (n : Nat) : Nat := natLog2Aux n n

/-- Decide `2^e ≤ a/b` for positive naturals `a`, `b`. -/
def pow2LeRat (e : ℤ) (a b : Nat) : Bool :=
  if 0 ≤ e then decide (2 ^ e.toNat * b ≤ a) else decide (b ≤ 2 ^ (-e).toNat * a)

/-- Round an exact rational to the nearest `float64` (IEEE 754 round to
nearest, ties to even): choose the binade exponent `e` with
`2^e ≤ |q| < 2^(e+1)`, round `|q|` to the grid of step `2^(e-52)` —
clamped to the subnormal step `2^-1074` — and overflow to infinity when
the rounded magnitude reaches `2^1024`. -/
def roundFloat (q : ℚ) : GoFloat :=
  if q.num = 0 then GoFloat.finite 0
  else
    let a : Nat := q.num.natAbs
    let b : Nat := q.den
    let e1 : ℤ := (natLog2 a : ℤ) - (natLog2 b : ℤ)
    let e : ℤ := if pow2LeRat e1 a b then e1 else e1 - 1
    let g : ℤ := if (-1074 : ℤ) ≤ e - 52 then e - 52 else -1074
    let av : Nat := if 0 ≤ g then a else a * 2 ^ (-g).toNat
    let bv : Nat := if 0 ≤ g then b * 2 ^ g.toNat else b
    let quot : Nat := av / bv
    let n : Nat :=
      if 2 * (av % bv) < bv then quot
      else if bv < 2 * (av % bv) then quot + 1
      else if quot % 2 = 0 then quot else quot + 1
    if n = 0 then GoFloat.finite 0
    else
      let nN : Nat := if 0 ≤ g then n * 2 ^ g.toNat else n
      let nD : Nat := if 0 ≤ g then 1 else 2 ^ (-g).toNat
      if decide (2 ^ 1024 * nD ≤ nN) then GoFloat.inf (decide (q.num < 0))
      else GoFloat.finite (mkRat (if q.num < 0 then -(nN : ℤ) else (nN : ℤ)) nD)

/-- Model of `strconv.ParseFloat(s, 64)`: the `float64` result together
with the `err != nil` flag.  A syntax error yields `(0, true)`; an
overflow yields `(±Inf, true)` (`ErrRange`); specials and in-range
literals parse cleanly; underflow is a clean zero. -/
def ParseFloat64 (s : String) : GoFloat × Bool :=
  match parseSpecial s.data with
  | some f => (f, false)
  | none =>
    match readFloatChars s.data with
    | none => (GoFloat.finite 0, true)
    | some (neg, q) =>
      match roundFloat (if neg then qNeg q else q) with
      | GoFloat.inf b => (GoFloat.inf b, true)
      | f => (f, false)

/-! ## Date and time parsing (`time.Parse`) -/

/-- Leap-year test of the Gregorian calendar (`time` package). -/
def isLeapYear (y : Nat) : Bool :=
  (y % 4 == 0 && y % 100 != 0) || (y % 400 == 0)

/-- Days in a month (`time` package; `time.Parse` rejects out-of-range
days). -/
def daysInMonth (y m : Nat) : Nat :=
  if m == 2 then (if isLeapYear y then 29 else 28)
  else if m == 4 || m == 6 || m == 9 || m == 11 then 30
  else 31

/-- Model of `time.Parse("2006-01-02", s)`: four-digit year, two-digit month `01-12`,
two-digit day valid for the month; anything else is a parse error. -/
def parseDate (s : String) : Option GoDate :=
  match s.data with
  | [y1, y2, y3, y4, '-', m1, m2, '-', d1, d2] =>
    if y1.isDigit && y2.isDigit && y3.isDigit && y4.isDigit &&
       m1.isDigit && m2.isDigit && d1.isDigit && d2.isDigit then
      let y := 1000 * digitVal y1 + 100 * digitVal y2 + 10 * digitVal y3 + digitVal y4
      let m := 10 * digitVal m1 + digitVal m2
      let d := 10 * digitVal d1 + digitVal d2
      if 1 ≤ m && m ≤ 12 && 1 ≤ d && d ≤ daysInMonth y m then
        some ⟨y, m, d⟩
      else none
    else none
  | _ => none

/-- Model of `time.Parse("15:04", s)`: one- or two-digit hour `0-23`, colon,
two-digit minute `00-59`; result is `(hour, minute)`. -/
def parseClock (s : String) : Option (Nat × Nat) :=
  match s.data with
  | [h1, ':', m1, m2] =>
    if h1.isDigit && m1.isDigit && m2.isDigit then
      let h := digitVal h1
      let mm := 10 * digitVal m1 + digitVal m2
      if h ≤ 23 && mm ≤ 59 then some (h, mm) else none
    else none
  | [h1, h2, ':', m1, m2] =>
    if h1.isDigit && h2.isDigit && m1.isDigit && m2.isDigit then
      let h := 10 * digitVal h1 + digitVal h2
      let mm := 10 * digitVal m1 + digitVal m2
      if h ≤ 23 && mm ≤ 59 then some (h, mm) else none
    else none
  | _ => none

/-! ## Scoring helpers -/

/-- Truncation toward zero of a rational, as Go's `math.Trunc` /
the implicit truncation in `math.Mod`. -/
def ratTrunc (q : ℚ) : ℤ :=
  if 0 ≤ q then ⌊q⌋ else ⌈q⌉

/-- Go `math.Mod(x, y)` on exact values: the remainder `x - y*trunc(x/y)`,
with the sign of `x`.  IEEE-754 `fmod` computes this exactly, so over the
representable values the model is exact. -/
def goMod (x y : ℚ) : ℚ :=
  x - y * (ratTrunc (x / y) : ℚ)

/-- Model of `math.Mod(x, 0.25)` lifted to `float64` values: finite
arguments give the exact remainder (IEEE `fmod` is exact and the result
of `goMod` by a power of two is representable); `Mod(±Inf, y)` and
`Mod(NaN, y)` are NaN. -/
def goMod25 : GoFloat → GoFloat
  | GoFloat.finite q => GoFloat.finite (goMod q (1/4))
  | _ => GoFloat.nan

/-- Go `f == 0` on a `float64`: false for infinities and NaN. -/
def goFloatEqZero : GoFloat → Bool
  | GoFloat.finite q => q == 0
  | _ => false

/-- Helper `parseTotal`: parse the total, defaulting to `0.0` when
`ParseFloat` reports an error (the Go function swallows the error). -/
def parseTotal (total : String) : GoFloat :=
  if (ParseFloat64 total).2 then GoFloat.finite 0 else (ParseFloat64 total).1


/-- Helper `isRoundDollarAmount`: the total string ends in the literal
suffix `".00"`. -/
def isRoundDollarAmount (total : String) : Bool :=
  ['.', '0', '0'].isSuffixOf total.data

/-- Helper `isMultipleOfQuarter`: `math.Mod(parseTotal(total), 0.25) == 0`
in `float64` semantics. -/
def isMultipleOfQuarter (total : String) : Bool :=
  goFloatEqZero (goMod25 (parseTotal total))

/-- Exact value of the `float64` literal `0.2`
(`3602879701896397 / 2^54`). -/
def c02 : ℚ := mkRat 3602879701896397 18014398509481984

/-- Model of `float64` multiplication: the exact product rounded back to a
double; NaN propagates and an infinity times zero is NaN. -/
def goMulFloat : GoFloat → GoFloat → GoFloat
  | GoFloat.nan, _ => GoFloat.nan
  | _, GoFloat.nan => GoFloat.nan
  | GoFloat.inf s1, GoFloat.inf s2 => GoFloat.inf (xor s1 s2)
  | GoFloat.inf s1, GoFloat.finite q =>
    if q = 0 then GoFloat.nan else GoFloat.inf (xor s1 (decide (q.num < 0)))
  | GoFloat.finite q, GoFloat.inf s2 =>
    if q = 0 then GoFloat.nan else GoFloat.inf (xor (decide (q.num < 0)) s2)
  | GoFloat.finite x, GoFloat.finite y => roundFloat (x * y)

/-- Model of `math.Ceil`: exact on finite doubles (the ceiling of a
representable value is representable), identity on infinities and NaN. -/
def goCeil : GoFloat → GoFloat
  | GoFloat.finite q => GoFloat.finite ((⌈q⌉ : ℤ) : ℚ)
  | f => f

/-- Model of Go's `int(f)` conversion: truncation toward zero.  For
values outside `int64` and for infinities and NaN the conversion is
implementation-defined in Go; the model returns the truncation (or `0`),
and every claim about it carries a hypothesis confining the inputs to the
defined regime. -/
def goToInt : GoFloat → ℤ
  | GoFloat.finite q => ratTrunc q
  | _ => 0

/-- The contribution of one gated item:
`int(math.Ceil(price * 0.2))` in `float64` semantics. -/
def itemContribution (price : String) : ℤ :=
  goToInt (goCeil (goMulFloat (ParseFloat64 price).1 (GoFloat.finite c02)))

/-- The per-item description-length loop of `CalculatePoints`: for each item
whose trimmed description length is a multiple of 3, parse the price (an
error aborts with the Go error message) and add
`int(math.Ceil(price * 0.2))`. -/
def itemDescPoints : List Item → Except String ℤ
  | [] => Except.ok 0
  | item :: rest =>
    if trimmedByteLen item.shortDescription % 3 = 0 then
      if (ParseFloat64 item.price).2 then Except.error "failed to parse price"
      else
        match itemDescPoints rest with
        | Except.error e => Except.error e
        | Except.ok r => Except.ok (itemContribution item.price + r)
    else itemDescPoints rest

/-- The purchase-time bonus test: `t.After(14:00) && t.Before(16:00)`,
i.e. strictly between 840 and 960 minutes after midnight. -/
def timeBonus (h m : Nat) : Bool :=
  decide (840 < 60 * h + m) && decide (60 * h + m < 960)

/-- Model of `CalculatePoints`: total points of a receipt, or the first parse error
(the Go mutex only serialises calls and has no observable effect on the
result). -/
def CalculatePoints (receipt : Receipt) : Except String ℤ :=
  let points : ℤ := (noSpaceByteLen receipt.retailer : ℤ)
  let points := points + (if isRoundDollarAmount receipt.total then 50 else 0)
  let points := points + (if isMultipleOfQuarter receipt.total then 25 else 0)
  let points := points + ((receipt.items.length / 2) * 5 : ℕ)
  match itemDescPoints receipt.items with
  | Except.error e => Except.error e
  | Except.ok itemPts =>
    match parseDate receipt.purchaseDate with
    | none => Except.error "failed to parse purchase date"
    | some date =>
      let points := points + itemPts + (if date.day % 2 = 1 then 6 else 0)
      match parseClock receipt.purchaseTime with
      | none => Except.error "failed to parse purchase time"
      | some t =>
        Except.ok (points + (if timeBonus t.1 t.2 then 10 else 0))

/-! ## Validation (`ValidateReceipt`, `ValidateID`)

The Go regular expressions are RE2 patterns over ASCII classes:
`\w = [0-9A-Za-z_]`, `\s = [\t\n\f\r ]`, `\d = [0-9]`. -/

/-- RE2 `\s`. -/
def isRegexSpace (c : Char) : Bool :=
  c.toNat == 9 || c.toNat == 10 || c.toNat == 12 || c.toNat == 13 || c.toNat == 32

/-- One character of the class `[\w\s\-]`. -/
def isWordSpaceDash (c : Char) : Bool :=
  c.isAlphanum || c == '_' || isRegexSpace c || c == '-'

/-- Model of `regexp.MatchString("^[\\w\\s\\-]+$", s)`. -/
def namePattern (s : String) : Bool :=
  !s.data.isEmpty && s.data.all isWordSpaceDash

/-- Model of the money pattern `^\\d+\\.\\d{2}$`: one or more digits, a point,
exactly two digits. -/
def moneyPattern (s : String) : Bool :=
  let ip := s.data.takeWhile Char.isDigit
  match s.data.dropWhile Char.isDigit with
  | ['.', d1, d2] => !ip.isEmpty && d1.isDigit && d2.isDigit
  | _ => false

/-- The per-item validation loop of `ValidateReceipt`: first failing check
wins. -/
def validateItems : List Item → Option String
  | [] => none
  | item :: rest =>
    if item.shortDescription = "" then some "Item ShortDescription is required"
    else if item.price = "" then some "Item Price is required"
    else if ¬ namePattern item.shortDescription then
      some "Item ShortDescription has invalid characters"
    else if ¬ moneyPattern item.price then some "Item Price has an invalid format"
    else validateItems rest

/-- Model of `ValidateReceipt`: structural checks in source order, short-circuiting on
the first failure; a pure function of the receipt. -/
def ValidateReceipt (receipt : Receipt) : Except String Unit :=
  if receipt.retailer = "" then Except.error "Retailer is required"
  else if receipt.purchaseDate = "" then Except.error "PurchaseDate is required"
  else if receipt.purchaseTime = "" then Except.error "PurchaseTime is required"
  else if receipt.total = "" then Except.error "Total is required"
  else if receipt.items.length = 0 then Except.error "At least one item is required"
  else if ¬ namePattern receipt.retailer then
    Except.error "Retailer name has invalid characters"
  else if (parseDate receipt.purchaseDate).isNone then
    Except.error "Invalid PurchaseDate format"
  else if (parseClock receipt.purchaseTime).isNone then
    Except.error "Invalid PurchaseTime format"
  else if ¬ moneyPattern receipt.total then Except.error "Invalid Total format"
  else
    match validateItems receipt.items with
    | some e => Except.error e
    | none => Except.ok ()

/-- Model of `ValidateID`: the id must match `^\S+$`. -/
def ValidateID (id : String) : Except String Unit :=
  if !id.data.isEmpty && id.data.all (fun c => !isRegexSpace c) then Except.ok ()
  else Except.error "Invalid ID format"

/-! ## Item ordering (`sort.Slice` keyed on `ShortDescription`)

Go compares strings in byte order, which on UTF-8 agrees with code-point
order.  `charListLt` is that strict order on the character lists. -/

/-- Strict lexicographic order on character lists (Go `<` on strings). -/
def charListLt : List Char → List Char → Bool
  | [], [] => false
  | [], _ :: _ => true
  | _ :: _, [] => false
  | a :: as, b :: bs => decide (a < b) || (a == b && charListLt as bs)

/-- The less-function passed to `sort.Slice`:
`items[i].ShortDescription < items[j].ShortDescription`. -/
def itemLess (a b : Item) : Bool :=
  charListLt a.shortDescription.data b.shortDescription.data

/-- Insert an item into a list sorted by `itemLess`, before the first
element it is not strictly greater than (the stable position). -/
def insertItem (a : Item) : List Item → List Item
  | [] => [a]
  | b :: l => if itemLess b a then b :: insertItem a l else a :: b :: l

/-- Stable insertion sort by `itemLess`.  Go's `sort.Slice` runs exactly
this algorithm on slices of fewer than 12 elements; on longer slices it
is some unstable sort with the same ordering, which still produces a
sorted permutation of the input (the only facts C3 uses) and coincides
with this list whenever the sort keys are pairwise distinct (the domain
C2 is proved on). -/
def sortItems : List Item → List Item
  | [] => []
  | a :: l => insertItem a (sortItems l)

/-! ## SHA-256 (`crypto/sha256`) over `Nat`

Words are naturals kept below `2^32` by `w32`; bytes are naturals below
`256`. -/

/-- Reduce to a 32-bit word. -/
def w32 (n : Nat) : Nat := n % 4294967296

/-- Rotate a 32-bit word right by `n`. -/
def rotr (n x : Nat) : Nat := w32 ((x >>> n) ||| (x <<< (32 - n)))

/-- SHA-256 Σ₀. -/
def bSig0 (x : Nat) : Nat := (rotr 2 x) ^^^ (rotr 13 x) ^^^ (rotr 22 x)

/-- SHA-256 Σ₁. -/
def bSig1 (x : Nat) : Nat := (rotr 6 x) ^^^ (rotr 11 x) ^^^ (rotr 25 x)

/-- SHA-256 σ₀. -/
def sSig0 (x : Nat) : Nat := (rotr 7 x) ^^^ (rotr 18 x) ^^^ (x >>> 3)

/-- SHA-256 σ₁. -/
def sSig1 (x : Nat) : Nat := (rotr 17 x) ^^^ (rotr 19 x) ^^^ (x >>> 10)

/-- SHA-256 `Ch`. -/
def chFn (x y z : Nat) : Nat := (x &&& y) ^^^ ((x ^^^ 4294967295) &&& z)

/-- SHA-256 `Maj`. -/
def majFn (x y z : Nat) : Nat := (x &&& y) ^^^ (x &&& z) ^^^ (y &&& z)

/-- The 64 SHA-256 round constants, in decimal. -/
def K256 : List Nat :=
  [1116352408, 1899447441, 3049323471, 3921009573, 961987163, 1508970993,
   2453635748, 2870763221, 3624381080, 310598401, 607225278, 1426881987,
   1925078388, 2162078206, 2614888103, 3248222580, 3835390401, 4022224774,
   264347078, 604807628, 770255983, 1249150122, 1555081692, 1996064986,
   2554220882, 2821834349, 2952996808, 3210313671, 3336571891, 3584528711,
   113926993, 338241895, 666307205, 773529912, 1294757372, 1396182291,
   1695183700, 1986661051, 2177026350, 2456956037, 2730485921, 2820302411,
   3259730800, 3345764771, 3516065817, 3600352804, 4094571909, 275423344,
   430227734, 506948616, 659060556, 883997877, 958139571, 1322822218,
   1537002063, 1747873779, 1955562222, 2024104815, 2227730452, 2361852424,
   2428436474, 2756734187, 3204031479, 3329325298]

/-- Big-endian bytes of the 64-bit message bit length. -/
def lenBytes (bl : Nat) : List Nat :=
  [(bl >>> 56) &&& 255, (bl >>> 48) &&& 255, (bl >>> 40) &&& 255, (bl >>> 32) &&& 255,
   (bl >>> 24) &&& 255, (bl >>> 16) &&& 255, (bl >>> 8) &&& 255, bl &&& 255]

/-- SHA-256 padding: `0x80`, zeros to 56 mod 64, 8-byte big-endian bit
length. -/
def padMessage (msg : List Nat) : List Nat :=
  msg ++ [128] ++ List.replicate ((119 - msg.length % 64) % 64) 0 ++ lenBytes (8 * msg.length)

/-- Group bytes into big-endian 32-bit words. -/
def toWords : List Nat → List Nat
  | b0 :: b1 :: b2 :: b3 :: rest =>
    ((b0 <<< 24) ||| (b1 <<< 16) ||| (b2 <<< 8) ||| b3) :: toWords rest
  | _ => []

/-- Group words into 16-word blocks. -/
def toBlocks : List Nat → List (List Nat)
  | w0 :: w1 :: w2 :: w3 :: w4 :: w5 :: w6 :: w7 ::
    w8 :: w9 :: w10 :: w11 :: w12 :: w13 :: w14 :: w15 :: rest =>
    [w0, w1, w2, w3, w4, w5, w6, w7, w8, w9, w10, w11, w12, w13, w14, w15] :: toBlocks rest
  | _ => []

/-- Extend the message schedule `k` more words; `acc` holds the schedule so
far in reverse (head `= W[t-1]`). -/
def extendWords : Nat → List Nat → List Nat
  | 0, acc => acc
  | k + 1, acc =>
    extendWords k
      (w32 (sSig1 (acc.getD 1 0) + acc.getD 6 0 + sSig0 (acc.getD 14 0) + acc.getD 15 0) :: acc)

/-- The eight working variables / hash words. -/
structure Hash8 where
  a : Nat
  b : Nat
  c : Nat
  d : Nat
  e : Nat
  f : Nat
  g : Nat
  h : Nat
deriving DecidableEq, Repr

/-- One SHA-256 round with constant `kw.1` and schedule word `kw.2`. -/
def shaRound (st : Hash8) (kw : Nat × Nat) : Hash8 :=
  let t1 := w32 (st.h + bSig1 st.e + chFn st.e st.f st.g + kw.1 + kw.2)
  let t2 := w32 (bSig0 st.a + majFn st.a st.b st.c)
  ⟨w32 (t1 + t2), st.a, st.b, st.c, w32 (st.d + t1), st.e, st.f, st.g⟩

/-- Compress one 16-word block into the running hash. -/
def compressBlock (st : Hash8) (block : List Nat) : Hash8 :=
  let ws := (extendWords 48 block.reverse).reverse
  let r := (K256.zip ws).foldl shaRound st
  ⟨w32 (st.a + r.a), w32 (st.b + r.b), w32 (st.c + r.c), w32 (st.d + r.d),
   w32 (st.e + r.e), w32 (st.f + r.f), w32 (st.g + r.g), w32 (st.h + r.h)⟩

/-- Big-endian bytes of one hash word. -/
def wordBytes (w : Nat) : List Nat :=
  [(w >>> 24) &&& 255, (w >>> 16) &&& 255, (w >>> 8) &&& 255, w &&& 255]

/-- SHA-256 digest (32 bytes) of a byte sequence. -/
def sha256Bytes (msg : List Nat) : List Nat :=
  let st := (toBlocks (toWords (padMessage msg))).foldl compressBlock
    ⟨1779033703, 3144134277, 1013904242, 2773480762, 1359893119, 2600822924, 528734635, 1541459225⟩
  wordBytes st.a ++ wordBytes st.b ++ wordBytes st.c ++ wordBytes st.d ++
  wordBytes st.e ++ wordBytes st.f ++ wordBytes st.g ++ wordBytes st.h

/-- UTF-8 encoding of one character, as byte values. -/
def utf8Bytes (c : Char) : List Nat :=
  let n := c.toNat
  if n < 0x80 then [n]
  else if n < 0x800 then
    [0xC0 ||| (n >>> 6), 0x80 ||| (n &&& 0x3F)]
  else if n < 0x10000 then
    [0xE0 ||| (n >>> 12), 0x80 ||| ((n >>> 6) &&& 0x3F), 0x80 ||| (n &&& 0x3F)]
  else
    [0xF0 ||| (n >>> 18), 0x80 ||| ((n >>> 12) &&& 0x3F),
     0x80 ||| ((n >>> 6) &&& 0x3F), 0x80 ||| (n &&& 0x3F)]

/-- UTF-8 bytes of a string (what the Go `hasher.Write` receives). -/
def strBytes (s : String) : List Nat :=
  (s.data.map utf8Bytes).flatten

/-- Lowercase hex digit. -/
def hexDigit (n : Nat) : Char :=
  if n < 10 then Char.ofNat (48 + n) else Char.ofNat (87 + n)

/-- Two lowercase hex digits per byte. -/
def hexPairs : List Nat → List Char
  | [] => []
  | b :: r => hexDigit (b / 16) :: hexDigit (b % 16) :: hexPairs r

/-- Model of `hex.EncodeToString`. -/
def hexEncode (bs : List Nat) : String :=
  ⟨hexPairs bs⟩

/-! ## `GenerateReceiptID` and the duplicate cache -/

/-- The `go-cache` duplicate cache: an association list keyed by receipt
id (newest first); expiration is not modelled. -/
def Cache : Type := List (String × Receipt)

/-- The empty cache. -/
def Cache.empty : Cache := ([] : List (String × Receipt))

/-- Model of `c.Get(k)`. -/
def Cache.get (c : Cache) (k : String) : Option Receipt :=
  match (c : List (String × Receipt)).find? (fun e => e.1 == k) with
  | some e => some e.2
  | none => none

/-- Model of `c.Set(k, v, cache.DefaultExpiration)`. -/
def Cache.set (c : Cache) (k : String) (v : Receipt) : Cache :=
  ((k, v) :: c : List (String × Receipt))

/-- Outcome of `GenerateReceiptID`: the Go return value pair. -/
inductive IdResult where
  | ok (id : String)
  | duplicate (id : String)
deriving DecidableEq, Repr

/-- The digest preimage: `retailer ++ purchaseDate ++ purchaseTime`, then
each sorted item's `shortDescription ++ price`, then `total` — direct
concatenation with no separators, exactly the `Fprintf` writes. -/
def hashPreimage (r : Receipt) (sortedItems : List Item) : String :=
  r.retailer ++ r.purchaseDate ++ r.purchaseTime ++
    (sortedItems.foldl (fun acc it => acc ++ it.shortDescription ++ it.price) "") ++ r.total

/-- The candidate identifier: lowercase hex SHA-256 of the preimage built
from the items sorted by description. -/
def candidateId (r : Receipt) : String :=
  hexEncode (sha256Bytes (strBytes (hashPreimage r (sortItems r.items))))

/-- Full outcome of `GenerateReceiptID`: result, cache afterwards, and the
caller's `receipt.Items` afterwards.  `sort.Slice` reorders the shared
backing array of the slice in place, so after the call the caller observes
the sorted order. -/
structure IdOutcome where
  result : IdResult
  cache : Cache
  callerItems : List Item

/-- Model of `GenerateReceiptID`: sort the items in place, hash, then consult the
cache: a hit is a duplicate error carrying the id (cache untouched), a miss
stores the (sorted) receipt and returns the id.  The `Fprintf` error
branches are dead code (`sha256.New()` hashers never fail to write). -/
def GenerateReceiptID (receipt : Receipt) (c : Cache) : IdOutcome :=
  let sorted := sortItems receipt.items
  let receiptId := candidateId receipt
  match c.get receiptId with
  | some _ => ⟨IdResult.duplicate receiptId, c, sorted⟩
  | none => ⟨IdResult.ok receiptId, c.set receiptId { receipt with items := sorted }, sorted⟩

/-! ## Derived definitions used by the statements -/

/-- The per-item description bonus as the scoring rule states it: items
whose trimmed description length is a multiple of 3 (zero included)
contribute `int(math.Ceil(price * 0.2))` of the parsed price in
`float64` semantics; other items contribute nothing. -/
def descBonus (items : List Item) : ℤ :=
  items.foldr (fun it acc =>
    (if trimmedByteLen it.shortDescription % 3 = 0
     then itemContribution it.price else 0) + acc) 0

/-! ## Concrete receipts used by witnesses and counterexamples -/

/-- Receipt whose total `"2.00"` is a multiple of a quarter. -/
def wQuarterReceipt : Receipt := ⟨"Target", "2023-01-01", "12:00", "2.00", []⟩

/-- Receipt with two items sharing a description but with different prices. -/
def dupDescA : Receipt := ⟨"R", "2023-01-01", "12:00", "3.00", [⟨"A", "1.00"⟩, ⟨"A", "2.00"⟩]⟩

/-- The same receipt as `dupDescA` with the two items swapped. -/
def dupDescB : Receipt := ⟨"R", "2023-01-01", "12:00", "3.00", [⟨"A", "2.00"⟩, ⟨"A", "1.00"⟩]⟩

/-- Receipt with two items with distinct descriptions. -/
def permDistinctA : Receipt :=
  ⟨"R", "2023-01-01", "12:00", "3.00", [⟨"Banana", "1.00"⟩, ⟨"Apple", "2.00"⟩]⟩

/-- The same receipt as `permDistinctA` with the two items swapped. -/
def permDistinctB : Receipt :=
  ⟨"R", "2023-01-01", "12:00", "3.00", [⟨"Apple", "2.00"⟩, ⟨"Banana", "1.00"⟩]⟩

/-- Receipt whose items are not sorted by description. -/
def unsortedReceipt : Receipt := ⟨"T", "2023-01-01", "12:00", "1.00", [⟨"B", "1.00"⟩, ⟨"A", "2.00"⟩]⟩

/-- Ordinary valid receipt for the duplicate-identifier witness. -/
def idReceipt : Receipt := ⟨"Market", "2023-05-05", "10:00", "5.00", [⟨"Water", "5.00"⟩]⟩

/-- Receipt purchased at 15:30, inside the bonus window. -/
def wTimeReceipt : Receipt := ⟨"ab", "2023-01-02", "15:30", "1.23", [⟨"ab", "9.99"⟩]⟩

/-- Item list with one description of trimmed length 3 and one of length 2. -/
def wDescItems : List Item := [⟨"abc", "1.26"⟩, ⟨"ab", "9.99"⟩]

/-- Receipt with a multiple-of-three description whose price does not
parse. -/
def badPriceReceipt : Receipt := ⟨"T", "2023-01-01", "12:00", "1.00", [⟨"abc", "x"⟩]⟩

/-- Receipt with the round-dollar total `"100.00"`. -/
def wRoundReceipt : Receipt := ⟨"T", "2023-01-01", "12:00", "100.00", []⟩

/-- Receipt with an empty retailer (and other defects, to exhibit
short-circuiting). -/
def emptyRetailerReceipt : Receipt := ⟨"", "2022-01-02", "13:01", "10.5", []⟩

/-- Otherwise-valid receipt whose total `"10.5"` misses a decimal digit. -/
def badTotalReceipt : Receipt := ⟨"Target", "2022-01-02", "13:01", "10.5", [⟨"Gatorade", "2.25"⟩]⟩

/-- Otherwise-valid receipt with zero items. -/
def noItemsReceipt : Receipt := ⟨"Target", "2022-01-02", "13:01", "1.00", []⟩

/-- Receipt whose total does not parse as a decimal number. -/
def wBadTotalReceipt : Receipt := ⟨"T", "2023-01-01", "12:00", "abc", [⟨"ab", "9.99"⟩]⟩

/-! ## Order lemmas for the string comparison -/

/-- Strict string order is irreflexive. -/
theorem charListLt_irrefl : ∀ l : List Char, charListLt l l = false
  | [] => rfl
  | a :: as => by
    simp [charListLt, charListLt_irrefl as]

/-- Strict string order is asymmetric. -/
theorem charListLt_asymm : ∀ {x y : List Char}, charListLt x y = true → charListLt y x = false
  | [], [], h => by simp [charListLt] at h
  | [], _ :: _, _ => rfl
  | _ :: _, [], h => by simp [charListLt] at h
  | a :: as, b :: bs, h => by
    simp only [charListLt, Bool.or_eq_true, decide_eq_true_eq, Bool.and_eq_true, beq_iff_eq] at h
    rcases h with h | ⟨rfl, h⟩
    · have hne : b ≠ a := fun hc => absurd (hc ▸ h) (lt_irrefl a)
      simp [charListLt, not_lt_of_lt h, hne]
    · simp [charListLt, charListLt_asymm h]

/-- Two strings neither of which is below the other are equal. -/
theorem charListLt_connex :
    ∀ {x y : List Char}, charListLt x y = false → charListLt y x = false → x = y
  | [], [], _, _ => rfl
  | [], _ :: _, h, _ => by simp [charListLt] at h
  | _ :: _, [], _, h => by simp [charListLt] at h
  | a :: as, b :: bs, h1, h2 => by
    simp only [charListLt, Bool.or_eq_false_iff, decide_eq_false_iff_not,
      Bool.and_eq_false_iff, beq_eq_false_iff_ne, ne_eq, Bool.not_eq_true] at h1 h2
    obtain ⟨hab, h1'⟩ := h1
    obtain ⟨hba, h2'⟩ := h2
    have hEq : a = b := le_antisymm (not_lt.mp hba) (not_lt.mp hab)
    subst hEq
    rcases h1' with h | h1' ; · exact absurd rfl h
    rcases h2' with h | h2' ; · exact absurd rfl h
    exact congrArg _ (charListLt_connex h1' h2')

/-- Strict string order is transitive. -/
theorem charListLt_trans :
    ∀ {x y z : List Char}, charListLt x y = true → charListLt y z = true → charListLt x z = true
  | [], _, c :: cs, _, _ => rfl
  | [], b :: bs, [], _, h2 => by simp [charListLt] at h2
  | [], [], [], h1, _ => by simp [charListLt] at h1
  | _ :: _, [], _, h1, _ => by simp [charListLt] at h1
  | _ :: _, _ :: _, [], _, h2 => by simp [charListLt] at h2
  | a :: as, b :: bs, c :: cs, h1, h2 => by
    simp only [charListLt, Bool.or_eq_true, decide_eq_true_eq, Bool.and_eq_true,
      beq_iff_eq] at h1 h2 ⊢
    rcases h1 with h1 | ⟨rfl, h1⟩
    · rcases h2 with h2 | ⟨rfl, h2⟩
      · exact Or.inl (lt_trans h1 h2)
      · exact Or.inl h1
    · rcases h2 with h2 | ⟨rfl, h2⟩
      · exact Or.inl h2
      · exact Or.inr ⟨rfl, charListLt_trans h1 h2⟩

/-! ## Lemmas about the item sort -/

/-- Asymmetry of the item comparator. -/
theorem itemLess_asymm {a b : Item} (h : itemLess a b = true) : itemLess b a = false :=
  charListLt_asymm h

/-- Items unordered in both directions have the same description. -/
theorem itemLess_desc_eq {a b : Item} (h1 : itemLess a b = false) (h2 : itemLess b a = false) :
    a.shortDescription = b.shortDescription :=
  congrArg String.mk (charListLt_connex h1 h2)

/-- Transitivity of the reflexive closure of the item comparator. -/
theorem itemLess_le_trans {a b c : Item} (h1 : itemLess b a = false) (h2 : itemLess c b = false) :
    itemLess c a = false := by
  cases h3 : itemLess c a with
  | false => rfl
  | true =>
    exfalso
    cases h4 : itemLess b c with
    | true =>
      have := charListLt_trans (x := b.shortDescription.data) h4 h3
      simp [itemLess] at h1 h2 h3 h4
      simp [this] at h1
    | false =>
      have : b.shortDescription = c.shortDescription :=
        (itemLess_desc_eq (a := c) (b := b) h2 h4).symm
      have h1' : itemLess c a = false := by
        unfold itemLess at h1 ⊢
        rw [← this]
        exact h1
      simp [h1'] at h3

/-- Inserting an item produces a permutation of consing it. -/
theorem insertItem_perm (a : Item) : ∀ l : List Item, List.Perm (insertItem a l) (a :: l)
  | [] => List.Perm.refl _
  | b :: l => by
    unfold insertItem
    by_cases h : itemLess b a <;> simp only [h, if_true, if_false, Bool.false_eq_true]
    · exact ((insertItem_perm a l).cons b).trans (List.Perm.swap a b l)
    · exact List.Perm.refl _

/-- The sort permutes its input. -/
theorem sortItems_perm : ∀ l : List Item, List.Perm (sortItems l) l
  | [] => List.Perm.refl _
  | a :: l => (insertItem_perm a (sortItems l)).trans ((sortItems_perm l).cons a)

/-- Insertion preserves sortedness. -/
theorem sorted_insertItem {a : Item} :
    ∀ {l : List Item}, l.Sorted (fun x y => itemLess y x = false) →
      (insertItem a l).Sorted (fun x y => itemLess y x = false)
  | [], _ => List.sorted_singleton a
  | b :: l, h => by
    unfold insertItem
    rcases List.sorted_cons.mp h with ⟨hb, hl⟩
    by_cases hba : itemLess b a <;> simp only [hba, if_true, if_false, Bool.false_eq_true]
    · refine List.sorted_cons.mpr ⟨?_, sorted_insertItem hl⟩
      intro x hx
      rcases List.mem_cons.mp ((insertItem_perm a l).mem_iff.mp hx) with rfl | hx
      · exact itemLess_asymm hba
      · exact hb x hx
    · refine List.sorted_cons.mpr ⟨?_, h⟩
      intro x hx
      rcases List.mem_cons.mp hx with rfl | hx
      · simpa using hba
      · exact itemLess_le_trans (by simpa using hba) (hb x hx)

/-- The sort output is sorted. -/
theorem sorted_sortItems : ∀ l : List Item, (sortItems l).Sorted (fun x y => itemLess y x = false)
  | [] => List.sorted_nil
  | _ :: l => sorted_insertItem (sorted_sortItems l)

/-- Two sorted permutations with pairwise distinct descriptions coincide. -/
theorem eq_of_perm_sorted_nodup :
    ∀ {l1 l2 : List Item}, List.Perm l1 l2 →
      l1.Sorted (fun x y => itemLess y x = false) →
      l2.Sorted (fun x y => itemLess y x = false) →
      (l1.map Item.shortDescription).Nodup → l1 = l2
  | [], l2, hp, _, _, _ => (hp.nil_eq).symm ▸ rfl
  | a :: l1, [], hp, _, _, _ => absurd hp.symm.nil_eq (by simp)
  | a :: l1, b :: l2, hp, hs1, hs2, hnd => by
    rcases List.sorted_cons.mp hs1 with ⟨ha, hs1'⟩
    rcases List.sorted_cons.mp hs2 with ⟨hbl, hs2'⟩
    have hab : a = b := by
      rcases List.mem_cons.mp (hp.mem_iff.mp (List.mem_cons_self a l1)) with h | hal2
      · exact h
      rcases List.mem_cons.mp (hp.symm.mem_iff.mp (List.mem_cons_self b l2)) with h | hbl1
      · exact h.symm
      exfalso
      have h1 : itemLess b a = false := ha b hbl1
      have h2 : itemLess a b = false := hbl a hal2
      have hdesc : a.shortDescription = b.shortDescription := itemLess_desc_eq h2 h1
      have : a.shortDescription ∈ l1.map Item.shortDescription :=
        hdesc ▸ List.mem_map_of_mem Item.shortDescription hbl1
      exact (List.nodup_cons.mp hnd).1 this
    subst hab
    have htail : l1 = l2 :=
      eq_of_perm_sorted_nodup hp.cons_inv hs1' hs2' (List.nodup_cons.mp hnd).2
    rw [htail]

/-- Sorting two permuted lists with pairwise distinct descriptions gives the
same list. -/
theorem sortItems_eq_of_perm {l1 l2 : List Item} (hp : List.Perm l1 l2)
    (hnd : (l1.map Item.shortDescription).Nodup) : sortItems l1 = sortItems l2 := by
  refine eq_of_perm_sorted_nodup ?_ (sorted_sortItems l1) (sorted_sortItems l2) ?_
  · exact (sortItems_perm l1).trans (hp.trans (sortItems_perm l2).symm)
  · exact (((sortItems_perm l1).map Item.shortDescription).nodup_iff).mpr hnd

/-! ## Lemmas about scoring -/

/-- Closed form of `CalculatePoints` when every parse succeeds. -/
theorem calculatePoints_eq (r : Receipt) (ip : ℤ) (d : GoDate) (t : Nat × Nat)
    (hip : itemDescPoints r.items = Except.ok ip)
    (hd : parseDate r.purchaseDate = some d)
    (ht : parseClock r.purchaseTime = some t) :
    CalculatePoints r = Except.ok ((noSpaceByteLen r.retailer : ℤ)
      + (if isRoundDollarAmount r.total then 50 else 0)
      + (if isMultipleOfQuarter r.total then 25 else 0)
      + ((r.items.length / 2 * 5 : ℕ) : ℤ)
      + ip + (if d.day % 2 = 1 then 6 else 0)
      + (if timeBonus t.1 t.2 then 10 else 0)) := by
  unfold CalculatePoints
  rw [hip, hd, ht]

/-- Truncation of an integer is itself. -/
theorem ratTrunc_intCast (k : ℤ) : ratTrunc (k : ℚ) = k := by
  unfold ratTrunc
  split <;> simp

/-- The exact remainder by one quarter vanishes exactly on integer
multiples of one quarter. -/
theorem goMod_quarter_eq_zero_iff (q : ℚ) :
    goMod q (1/4) = 0 ↔ ∃ k : ℤ, q = (k : ℚ) * (1/4) := by
  unfold goMod
  constructor
  · intro h
    exact ⟨ratTrunc (q / (1/4)), by linarith⟩
  · rintro ⟨k, rfl⟩
    have h4 : ((k : ℚ) * (1/4)) / (1/4) = (k : ℚ) := by
      field_simp
    rw [h4, ratTrunc_intCast]
    ring

/-- The quarter test of the code in terms of a finite parsed total. -/
theorem isMultipleOfQuarter_finite_iff (s : String) (q : ℚ)
    (h : parseTotal s = GoFloat.finite q) :
    isMultipleOfQuarter s = true ↔ ∃ k : ℤ, q = (k : ℚ) * (1/4) := by
  unfold isMultipleOfQuarter
  rw [h]
  show (goMod q (1/4) == 0) = true ↔ _
  rw [beq_iff_eq]
  exact goMod_quarter_eq_zero_iff q

/-- The item loop returns the stated description bonus whenever every
gated price parses cleanly. -/
theorem itemDescPoints_eq_descBonus :
    ∀ {items : List Item},
      (∀ it ∈ items, trimmedByteLen it.shortDescription % 3 = 0 →
        (ParseFloat64 it.price).2 = false) →
      itemDescPoints items = Except.ok (descBonus items)
  | [], _ => rfl
  | item :: rest, hp => by
    have hrest := itemDescPoints_eq_descBonus
      (fun it hit => hp it (List.mem_cons_of_mem item hit))
    unfold itemDescPoints descBonus
    by_cases h3 : trimmedByteLen item.shortDescription % 3 = 0
    · have herr := hp item (List.mem_cons_self item rest) h3
      rw [if_pos h3, herr]
      unfold descBonus at hrest
      rw [hrest]
      simp [h3]
    · rw [if_neg h3]
      unfold descBonus at hrest
      rw [hrest]
      simp [h3]

/-- The item loop fails whenever some multiple-of-three item has a price
on which `ParseFloat` errors. -/
theorem itemDescPoints_error :
    ∀ {items : List Item},
      (∃ it ∈ items, trimmedByteLen it.shortDescription % 3 = 0 ∧
        (ParseFloat64 it.price).2 = true) →
      ∃ e, itemDescPoints items = Except.error e
  | [], h => by simp at h
  | item :: rest, h => by
    unfold itemDescPoints
    rcases h with ⟨it, hit, h3, herr⟩
    rcases List.mem_cons.mp hit with rfl | hit'
    · rw [if_pos h3, herr]
      exact ⟨_, rfl⟩
    · by_cases hh : trimmedByteLen item.shortDescription % 3 = 0
      · rw [if_pos hh]
        cases hq : (ParseFloat64 item.price).2 with
        | true => exact ⟨_, rfl⟩
        | false =>
          obtain ⟨e, he⟩ := itemDescPoints_error ⟨it, hit', h3, herr⟩
          rw [he]
          exact ⟨e, rfl⟩
      · rw [if_neg hh]
        exact itemDescPoints_error ⟨it, hit', h3, herr⟩

/-! ## Lemmas about the identifier encoding -/

/-- Hex encoding yields two characters per byte. -/
theorem hexPairs_length : ∀ bs : List Nat, (hexPairs bs).length = 2 * bs.length
  | [] => rfl
  | b :: r => by
    simp [hexPairs, hexPairs_length r]
    ring

/-- A SHA-256 digest has 32 bytes. -/
theorem sha256Bytes_length (msg : List Nat) : (sha256Bytes msg).length = 32 := by
  simp [sha256Bytes, wordBytes]

/-- Bytes of a hash word are below 256. -/
theorem mem_wordBytes_lt (w : Nat) : ∀ b ∈ wordBytes w, b < 256 := by
  intro b hb
  simp only [wordBytes, List.mem_cons, List.not_mem_nil, or_false] at hb
  rcases hb with rfl | rfl | rfl | rfl <;> exact Nat.lt_succ_of_le Nat.and_le_right

/-- Digest bytes are below 256. -/
theorem mem_sha256Bytes_lt (msg : List Nat) : ∀ b ∈ sha256Bytes msg, b < 256 := by
  intro b hb
  unfold sha256Bytes at hb
  simp only [List.mem_append] at hb
  rcases hb with ((((((h | h) | h) | h) | h) | h) | h) | h <;> exact mem_wordBytes_lt _ b h

/-- Hex digits of values below 16 are lowercase hex characters. -/
theorem hexDigit_mem_of_lt : ∀ n < 16, hexDigit n ∈ ("0123456789abcdef").data := by
  decide

/-- Every character of the hex encoding of bytes is a lowercase hex
character. -/
theorem mem_hexPairs :
    ∀ {bs : List Nat}, (∀ b ∈ bs, b < 256) →
      ∀ ch ∈ hexPairs bs, ch ∈ ("0123456789abcdef").data
  | [], _, ch, hch => by simp [hexPairs] at hch
  | b :: r, hb, ch, hch => by
    have hblt : b < 256 := hb b (List.mem_cons_self b r)
    rcases List.mem_cons.mp hch with rfl | hch'
    · exact hexDigit_mem_of_lt _ (Nat.div_lt_of_lt_mul (by omega))
    rcases List.mem_cons.mp hch' with rfl | hch''
    · exact hexDigit_mem_of_lt _ (Nat.mod_lt _ (by omega))
    · exact mem_hexPairs (fun x hx => hb x (List.mem_cons_of_mem b hx)) ch hch''

/-- The round-dollar test holds exactly when the total ends in the literal
suffix `".00"`. -/
theorem isRoundDollarAmount_iff_suffix (s : String) :
    isRoundDollarAmount s = true ↔ ∃ p : String, s = p ++ ".00" := by
  unfold isRoundDollarAmount
  rw [List.isSuffixOf_iff_suffix]
  constructor
  · rintro ⟨t, ht⟩
    exact ⟨⟨t⟩, congrArg String.mk ht.symm⟩
  · rintro ⟨p, rfl⟩
    exact ⟨p.data, (String.data_append p ".00").symm⟩

/-! ## Claim theorems -/

/-- C1: for every receipt whose total string `ParseFloat` accepts with a
finite `float64` value `v`, the scoring awards the 25-point quarter bonus
exactly when `v` — the exact value of that double — is an integer
multiple of 0.25: the code's test `math.Mod(value, 0.25) == 0` is decided
on the `float64` value of the total string, and IEEE `fmod` by the power
of two 0.25 is exact, so it vanishes exactly on the multiples of 0.25.
The bonus enters the total as the 25-point summand of
`CalculatePoints`. -/
theorem quarter_bonus_iff_exact_multiple (r : Receipt) (v : ℚ)
    (hq : ParseFloat64 r.total = (GoFloat.finite v, false)) :
    (isMultipleOfQuarter r.total = true ↔ ∃ k : ℤ, v = (k : ℚ) * (1/4)) ∧
    (∀ ip d t, itemDescPoints r.items = Except.ok ip →
      parseDate r.purchaseDate = some d → parseClock r.purchaseTime = some t →
      CalculatePoints r = Except.ok ((noSpaceByteLen r.retailer : ℤ)
        + (if isRoundDollarAmount r.total then 50 else 0)
        + (if isMultipleOfQuarter r.total then 25 else 0)
        + ((r.items.length / 2 * 5 : ℕ) : ℤ)
        + ip + (if d.day % 2 = 1 then 6 else 0)
        + (if timeBonus t.1 t.2 then 10 else 0))) := by
  constructor
  · have hpt : parseTotal r.total = GoFloat.finite v := by
      simp [parseTotal, hq]
    exact isMultipleOfQuarter_finite_iff r.total v hpt
  · intro ip d t hip hd ht
    exact calculatePoints_eq r ip d t hip hd ht

/-- C1 witness: total `"2.00"` parses to the double 2, a multiple of
0.25, and receives the quarter bonus. -/
theorem quarter_bonus_iff_exact_multiple_witness :
    ParseFloat64 wQuarterReceipt.total = (GoFloat.finite 2, false) ∧
    isMultipleOfQuarter wQuarterReceipt.total = true := by
  have hq : ParseFloat64 wQuarterReceipt.total = (GoFloat.finite 2, false) := by decide
  exact ⟨hq, ((quarter_bonus_iff_exact_multiple wQuarterReceipt 2 hq).1).mpr
    ⟨8, by push_cast; norm_num⟩⟩

/-- C2 counterexample: two receipts equal in retailer, date, time and total
whose item lists are permutations of each other (two items with the same
description but different prices, swapped) get different candidate
identifiers from `GenerateReceiptID`, because the sort is keyed only on
the description and leaves equal-description items in input order. -/
theorem identify_not_order_invariant_with_duplicate_descriptions :
    dupDescA.retailer = dupDescB.retailer ∧
    dupDescA.purchaseDate = dupDescB.purchaseDate ∧
    dupDescA.purchaseTime = dupDescB.purchaseTime ∧
    dupDescA.total = dupDescB.total ∧
    List.Perm dupDescA.items dupDescB.items ∧
    candidateId dupDescA ≠ candidateId dupDescB ∧
    (GenerateReceiptID dupDescA Cache.empty).result ≠
      (GenerateReceiptID dupDescB Cache.empty).result := by
  exact ⟨rfl, rfl, rfl, rfl, by decide, by decide, by decide⟩

/-- C2 amended: for receipts equal in retailer, purchaseDate, purchaseTime
and total whose item lists are permutations of each other, `identify`
computes the same candidate identifier provided no two items share a
shortDescription (then sorting by description is a unique normal form). -/
theorem identify_order_invariant_of_distinct_descriptions (r1 r2 : Receipt)
    (hret : r1.retailer = r2.retailer) (hdate : r1.purchaseDate = r2.purchaseDate)
    (htime : r1.purchaseTime = r2.purchaseTime) (htot : r1.total = r2.total)
    (hperm : List.Perm r1.items r2.items)
    (hnd : (r1.items.map Item.shortDescription).Nodup) :
    candidateId r1 = candidateId r2 := by
  unfold candidateId hashPreimage
  rw [hret, hdate, htime, htot, sortItems_eq_of_perm hperm hnd]

/-- C2 witness: swapping two items with distinct descriptions leaves the
candidate identifier unchanged. -/
theorem identify_order_invariant_of_distinct_descriptions_witness :
    List.Perm permDistinctA.items permDistinctB.items ∧
    (permDistinctA.items.map Item.shortDescription).Nodup ∧
    candidateId permDistinctA = candidateId permDistinctB := by
  refine ⟨by decide, by decide, ?_⟩
  exact identify_order_invariant_of_distinct_descriptions permDistinctA permDistinctB
    rfl rfl rfl rfl (by decide) (by decide)

/-- C3 amended: `GenerateReceiptID` reorders the caller's item slice in
place (the Go slice shares its backing array): after the call the caller
observes a permutation of its original items that is sorted by ascending
`shortDescription` — the two properties every execution of the
documented-unstable `sort.Slice` guarantees — so the caller's order
changes whenever the items were not already so sorted, and the scalar
fields are untouched. -/
theorem identify_sorts_caller_items_in_place (r : Receipt) (c : Cache) :
    List.Perm (GenerateReceiptID r c).callerItems r.items ∧
    ((GenerateReceiptID r c).callerItems).Sorted
      (fun x y => itemLess y x = false) := by
  have hcal : (GenerateReceiptID r c).callerItems = sortItems r.items := by
    unfold GenerateReceiptID
    cases h : Cache.get c (candidateId r) <;> simp [h]
  rw [hcal]
  exact ⟨sortItems_perm r.items, sorted_sortItems r.items⟩

/-- C3 counterexample: on a receipt whose items are not sorted by
description, the caller's item sequence after `GenerateReceiptID` differs
from the one before the call. -/
theorem identify_mutates_caller_item_order :
    (GenerateReceiptID unsortedReceipt Cache.empty).callerItems ≠ unsortedReceipt.items := by
  decide

/-- C3 witness: the amended statement at a concrete receipt. -/
theorem identify_sorts_caller_items_in_place_witness :
    List.Perm (GenerateReceiptID unsortedReceipt Cache.empty).callerItems
      unsortedReceipt.items ∧
    ((GenerateReceiptID unsortedReceipt Cache.empty).callerItems).Sorted
      (fun x y => itemLess y x = false) :=
  identify_sorts_caller_items_in_place unsortedReceipt Cache.empty

/-- C4: starting from an empty cache, the first `GenerateReceiptID` call
succeeds with a 64-character lowercase-hexadecimal identifier and stores
it; the second call with the byte-identical receipt fails as a duplicate
carrying the identical identifier, and returns the cache unchanged. -/
theorem identify_first_ok_then_duplicate (r : Receipt) :
    ∃ id : String,
      (GenerateReceiptID r Cache.empty).result = IdResult.ok id ∧
      id.length = 64 ∧
      (∀ ch ∈ id.data, ch ∈ ("0123456789abcdef").data) ∧
      GenerateReceiptID r ((GenerateReceiptID r Cache.empty).cache) =
        ⟨IdResult.duplicate id, (GenerateReceiptID r Cache.empty).cache,
         sortItems r.items⟩ := by
  refine ⟨candidateId r, rfl, ?_, ?_, ?_⟩
  · show (hexPairs (sha256Bytes (strBytes (hashPreimage r (sortItems r.items))))).length = 64
    rw [hexPairs_length, sha256Bytes_length]
  · intro ch hch
    exact mem_hexPairs (mem_sha256Bytes_lt _) ch hch
  · have hc : (GenerateReceiptID r Cache.empty).cache =
        Cache.set Cache.empty (candidateId r) { r with items := sortItems r.items } := rfl
    rw [hc]
    have hget : Cache.get
        (Cache.set Cache.empty (candidateId r) { r with items := sortItems r.items })
        (candidateId r) = some { r with items := sortItems r.items } := by
      simp [Cache.get, Cache.set, Cache.empty, List.find?]
    simp only [GenerateReceiptID]
    rw [hget]

/-- C4 witness: the statement at a concrete receipt. -/
theorem identify_first_ok_then_duplicate_witness :
    ∃ id : String,
      (GenerateReceiptID idReceipt Cache.empty).result = IdResult.ok id ∧
      id.length = 64 ∧
      (∀ ch ∈ id.data, ch ∈ ("0123456789abcdef").data) ∧
      GenerateReceiptID idReceipt ((GenerateReceiptID idReceipt Cache.empty).cache) =
        ⟨IdResult.duplicate id, (GenerateReceiptID idReceipt Cache.empty).cache,
         sortItems idReceipt.items⟩ :=
  identify_first_ok_then_duplicate idReceipt

/-- C5: when the purchase time parses as hour `h` and minute `m`, the
10-point time bonus applies exactly when the time is strictly after 14:00
and strictly before 16:00; in particular 14:00 and 16:00 get no bonus
while 14:01 and 15:59 do, and the bonus enters `CalculatePoints` as its
final summand. -/
theorem time_bonus_strictly_between (r : Receipt) (h m : Nat)
    (ht : parseClock r.purchaseTime = some (h, m)) :
    (timeBonus h m = true ↔ 14 * 60 < 60 * h + m ∧ 60 * h + m < 16 * 60) ∧
    (timeBonus 14 0 = false ∧ timeBonus 14 1 = true ∧
     timeBonus 15 59 = true ∧ timeBonus 16 0 = false) ∧
    (∀ ip d, itemDescPoints r.items = Except.ok ip →
      parseDate r.purchaseDate = some d →
      CalculatePoints r = Except.ok ((noSpaceByteLen r.retailer : ℤ)
        + (if isRoundDollarAmount r.total then 50 else 0)
        + (if isMultipleOfQuarter r.total then 25 else 0)
        + ((r.items.length / 2 * 5 : ℕ) : ℤ)
        + ip + (if d.day % 2 = 1 then 6 else 0)
        + (if 14 * 60 < 60 * h + m ∧ 60 * h + m < 16 * 60 then 10 else 0))) := by
  have hiff : timeBonus h m = true ↔ 14 * 60 < 60 * h + m ∧ 60 * h + m < 16 * 60 := by
    simp [timeBonus]
  refine ⟨hiff, by decide, ?_⟩
  intro ip d hip hd
  rw [calculatePoints_eq r ip d (h, m) hip hd ht, if_congr hiff rfl rfl]

/-- C5 witness: a 15:30 receipt gets the 10-point bonus. -/
theorem time_bonus_strictly_between_witness :
    parseClock wTimeReceipt.purchaseTime = some (15, 30) ∧
    itemDescPoints wTimeReceipt.items = Except.ok 0 ∧
    parseDate wTimeReceipt.purchaseDate = some ⟨2023, 1, 2⟩ ∧
    CalculatePoints wTimeReceipt = Except.ok ((noSpaceByteLen wTimeReceipt.retailer : ℤ)
      + (if isRoundDollarAmount wTimeReceipt.total then 50 else 0)
      + (if isMultipleOfQuarter wTimeReceipt.total then 25 else 0)
      + ((wTimeReceipt.items.length / 2 * 5 : ℕ) : ℤ)
      + 0 + (if (GoDate.mk 2023 1 2).day % 2 = 1 then 6 else 0)
      + (if 14 * 60 < 60 * 15 + 30 ∧ 60 * 15 + 30 < 16 * 60 then 10 else 0)) := by
  have ht : parseClock wTimeReceipt.purchaseTime = some (15, 30) := rfl
  exact ⟨ht, rfl, rfl,
    (time_bonus_strictly_between wTimeReceipt 15 30 ht).2.2 0 ⟨2023, 1, 2⟩ rfl rfl⟩

/-- C6: when every item whose trimmed description length is a multiple of
3 (zero included) has a price that `ParseFloat` accepts with a finite
`float64` value of magnitude at most `2^62` (so that the `int`
conversion of the ceiling stays in Go's defined range), the item loop
returns exactly the sum, over those items, of
`int(math.Ceil(price * 0.2))` in `float64` semantics, and items whose
trimmed length is not a multiple of 3 contribute nothing (`descBonus`
spells out that sum). -/
theorem desc_length_multiple_of_three_bonus (items : List Item)
    (hp : ∀ it ∈ items, trimmedByteLen it.shortDescription % 3 = 0 →
      (ParseFloat64 it.price).2 = false ∧
      ∃ q : ℚ, (ParseFloat64 it.price).1 = GoFloat.finite q ∧
        q.num.natAbs ≤ 2 ^ 62 * q.den) :
    itemDescPoints items = Except.ok (descBonus items) :=
  itemDescPoints_eq_descBonus (fun it hit h3 => (hp it hit h3).1)

/-- C6 witness: one multiple-of-three item with price `"1.26"` (whose
double is `5674535530486825 / 2^52`) plus one length-2 item. -/
theorem desc_length_multiple_of_three_bonus_witness :
    (∀ it ∈ wDescItems, trimmedByteLen it.shortDescription % 3 = 0 →
      (ParseFloat64 it.price).2 = false ∧
      ∃ q : ℚ, (ParseFloat64 it.price).1 = GoFloat.finite q ∧
        q.num.natAbs ≤ 2 ^ 62 * q.den) ∧
    itemDescPoints wDescItems = Except.ok (descBonus wDescItems) := by
  have hp : ∀ it ∈ wDescItems, trimmedByteLen it.shortDescription % 3 = 0 →
      (ParseFloat64 it.price).2 = false ∧
      ∃ q : ℚ, (ParseFloat64 it.price).1 = GoFloat.finite q ∧
        q.num.natAbs ≤ 2 ^ 62 * q.den := by
    intro it hit h3
    rcases List.mem_cons.mp hit with rfl | hit'
    · exact ⟨by decide, ⟨mkRat 5674535530486825 4503599627370496, by decide, by decide⟩⟩
    rcases List.mem_cons.mp hit' with rfl | hit''
    · exact absurd h3 (by decide)
    · simp at hit''
  exact ⟨hp, desc_length_multiple_of_three_bonus wDescItems hp⟩

/-- C7: a multiple-of-three item whose price `ParseFloat` rejects, an
unparseable purchase date, or an unparseable purchase time each makes
`CalculatePoints` abort with a parse error and return no points total. -/
theorem scoring_aborts_on_parse_failure (r : Receipt)
    (hbad : (∃ it ∈ r.items, trimmedByteLen it.shortDescription % 3 = 0 ∧
              (ParseFloat64 it.price).2 = true) ∨
            parseDate r.purchaseDate = none ∨ parseClock r.purchaseTime = none) :
    (∃ e, CalculatePoints r = Except.error e) ∧ ∀ p, CalculatePoints r ≠ Except.ok p := by
  have herr : ∃ e, CalculatePoints r = Except.error e := by
    rcases hbad with hitems | hdate | htime
    · obtain ⟨e, he⟩ := itemDescPoints_error hitems
      exact ⟨e, by simp [CalculatePoints, he]⟩
    · cases h1 : itemDescPoints r.items with
      | error e => exact ⟨e, by simp [CalculatePoints, h1]⟩
      | ok ip => exact ⟨"failed to parse purchase date", by simp [CalculatePoints, h1, hdate]⟩
    · cases h1 : itemDescPoints r.items with
      | error e => exact ⟨e, by simp [CalculatePoints, h1]⟩
      | ok ip =>
        cases h2 : parseDate r.purchaseDate with
        | none =>
          exact ⟨"failed to parse purchase date", by simp [CalculatePoints, h1, h2]⟩
        | some d =>
          exact ⟨"failed to parse purchase time", by simp [CalculatePoints, h1, h2, htime]⟩
  refine ⟨herr, ?_⟩
  obtain ⟨e, he⟩ := herr
  intro p hp
  rw [he] at hp
  exact Except.noConfusion hp

/-- C7 witness: an item with description `"abc"` and price `"x"` aborts
the scoring. -/
theorem scoring_aborts_on_parse_failure_witness :
    ((∃ it ∈ badPriceReceipt.items, trimmedByteLen it.shortDescription % 3 = 0 ∧
       (ParseFloat64 it.price).2 = true) ∨
      parseDate badPriceReceipt.purchaseDate = none ∨
      parseClock badPriceReceipt.purchaseTime = none) ∧
    (∃ e, CalculatePoints badPriceReceipt = Except.error e) := by
  have hbad : (∃ it ∈ badPriceReceipt.items, trimmedByteLen it.shortDescription % 3 = 0 ∧
      (ParseFloat64 it.price).2 = true) ∨
      parseDate badPriceReceipt.purchaseDate = none ∨
      parseClock badPriceReceipt.purchaseTime = none :=
    Or.inl ⟨⟨"abc", "x"⟩, by decide, by decide, by decide⟩
  exact ⟨hbad, (scoring_aborts_on_parse_failure badPriceReceipt hbad).1⟩

/-- C8: the 50-point bonus applies exactly when the total string ends in
the literal suffix `".00"`; it is a summand independent of and cumulative
with the 25-point quarter bonus, and `"100.00"` passes both tests. -/
theorem round_dollar_suffix_and_cumulative_bonus (r : Receipt) :
    (isRoundDollarAmount r.total = true ↔ ∃ p : String, r.total = p ++ ".00") ∧
    (isRoundDollarAmount "100.00" = true ∧ isMultipleOfQuarter "100.00" = true) ∧
    (∀ ip d t, itemDescPoints r.items = Except.ok ip →
      parseDate r.purchaseDate = some d → parseClock r.purchaseTime = some t →
      CalculatePoints r = Except.ok ((noSpaceByteLen r.retailer : ℤ)
        + (if isRoundDollarAmount r.total then 50 else 0)
        + (if isMultipleOfQuarter r.total then 25 else 0)
        + ((r.items.length / 2 * 5 : ℕ) : ℤ)
        + ip + (if d.day % 2 = 1 then 6 else 0)
        + (if timeBonus t.1 t.2 then 10 else 0))) := by
  refine ⟨isRoundDollarAmount_iff_suffix r.total, ⟨by decide, ?_⟩, ?_⟩
  · have h100 : parseTotal "100.00" = GoFloat.finite 100 := by decide
    refine (isMultipleOfQuarter_finite_iff "100.00" 100 h100).mpr ⟨400, ?_⟩
    push_cast
    norm_num
  · intro ip d t hip hd ht
    exact calculatePoints_eq r ip d t hip hd ht

/-- C8 witness: the receipt with total `"100.00"` gets both summands. -/
theorem round_dollar_suffix_and_cumulative_bonus_witness :
    isRoundDollarAmount wRoundReceipt.total = true ∧
    isMultipleOfQuarter wRoundReceipt.total = true ∧
    CalculatePoints wRoundReceipt = Except.ok ((noSpaceByteLen wRoundReceipt.retailer : ℤ)
      + (if isRoundDollarAmount wRoundReceipt.total then 50 else 0)
      + (if isMultipleOfQuarter wRoundReceipt.total then 25 else 0)
      + ((wRoundReceipt.items.length / 2 * 5 : ℕ) : ℤ)
      + 0 + (if (GoDate.mk 2023 1 1).day % 2 = 1 then 6 else 0)
      + (if timeBonus 12 0 then 10 else 0)) := by
  refine ⟨(round_dollar_suffix_and_cumulative_bonus wRoundReceipt).2.1.1,
    (round_dollar_suffix_and_cumulative_bonus wRoundReceipt).2.1.2, ?_⟩
  exact (round_dollar_suffix_and_cumulative_bonus wRoundReceipt).2.2
    0 ⟨2023, 1, 1⟩ (12, 0) rfl rfl rfl

/-- C9: validation short-circuits on the first failing check and returns a
distinct field-specific message for an empty retailer (even when the total
and the item list are also invalid), for the total `"10.5"` on an
otherwise valid receipt, and for an empty item list on an otherwise valid
receipt; the model of `ValidateReceipt` is a pure function, so validation
has no side effects. -/
theorem validate_distinct_field_specific_errors :
    ValidateReceipt emptyRetailerReceipt = Except.error "Retailer is required" ∧
    ValidateReceipt badTotalReceipt = Except.error "Invalid Total format" ∧
    ValidateReceipt noItemsReceipt = Except.error "At least one item is required" ∧
    "Retailer is required" ≠ "Invalid Total format" ∧
    "Retailer is required" ≠ "At least one item is required" ∧
    "Invalid Total format" ≠ "At least one item is required" := by
  refine ⟨rfl, rfl, rfl, by decide, by decide, by decide⟩

/-- C10: when `ParseFloat` reports an error for the total string, the
scoring does not fail on the total: `parseTotal` silently yields the
double 0.0, `math.Mod(0, 0.25) == 0` holds, and the 25-point bonus is
unconditionally awarded. -/
theorem unparseable_total_gets_quarter_bonus (r : Receipt)
    (hq : (ParseFloat64 r.total).2 = true) :
    parseTotal r.total = GoFloat.finite 0 ∧ isMultipleOfQuarter r.total = true ∧
    (∀ ip d t, itemDescPoints r.items = Except.ok ip →
      parseDate r.purchaseDate = some d → parseClock r.purchaseTime = some t →
      CalculatePoints r = Except.ok ((noSpaceByteLen r.retailer : ℤ)
        + (if isRoundDollarAmount r.total then 50 else 0)
        + 25
        + ((r.items.length / 2 * 5 : ℕ) : ℤ)
        + ip + (if d.day % 2 = 1 then 6 else 0)
        + (if timeBonus t.1 t.2 then 10 else 0))) := by
  have h0 : parseTotal r.total = GoFloat.finite 0 := by simp [parseTotal, hq]
  have h25 : isMultipleOfQuarter r.total = true :=
    (isMultipleOfQuarter_finite_iff r.total 0 h0).mpr ⟨0, by norm_num⟩
  refine ⟨h0, h25, ?_⟩
  intro ip d t hip hd ht
  rw [calculatePoints_eq r ip d t hip hd ht]
  simp [h25]

/-- C10 witness: total `"abc"` does not parse yet earns the quarter
bonus. -/
theorem unparseable_total_gets_quarter_bonus_witness :
    (ParseFloat64 wBadTotalReceipt.total).2 = true ∧
    isMultipleOfQuarter wBadTotalReceipt.total = true ∧
    CalculatePoints wBadTotalReceipt = Except.ok ((noSpaceByteLen wBadTotalReceipt.retailer : ℤ)
      + (if isRoundDollarAmount wBadTotalReceipt.total then 50 else 0)
      + 25
      + ((wBadTotalReceipt.items.length / 2 * 5 : ℕ) : ℤ)
      + 0 + (if (GoDate.mk 2023 1 1).day % 2 = 1 then 6 else 0)
      + (if timeBonus 12 0 then 10 else 0)) := by
  have hq : (ParseFloat64 wBadTotalReceipt.total).2 = true := rfl
  refine ⟨hq, (unparseable_total_gets_quarter_bonus wBadTotalReceipt hq).2.1, ?_⟩
  exact (unparseable_total_gets_quarter_bonus wBadTotalReceipt hq).2.2
    0 ⟨2023, 1, 1⟩ (12, 0) rfl rfl rfl
